import Mathlib

/-!
Verification development for the CMPE-48A URL-shortener.

Strings are modelled as lists of Unicode code points (`List Nat`), so that
Python's `ord` is the identity on our characters.  The hashids codec is
embedded from the hashids-python library exactly as it is instantiated at
`app.py:300` (`Hashids(min_length=4, salt=SECRET_KEY)` with the default
62-character alphabet and the default secret `"Divi"`).  The web handlers of
`app.py` and the cloud function `main.py` are embedded as pure state
transformers over an explicit database value; external effects (GCS, QR
rendering, the connection pool) appear as explicit environment flags and
event traces.
-/

set_option maxRecDepth 40000

namespace UrlShortener

/-! ### Hashids codec: primitive operations (hashids-python) -/

/-- Swap the entries at positions `i` and `j` of a list (Python
`string[i], string[j] = string[j], string[i]`).  Irreducible only to stop
the elaborator from expanding symbolic swap chains; the kernel and
`decide` still evaluate it. -/
@[irreducible] def listSwap (s : List Nat) (i j : Nat) : List Nat :=
  let a := s.getD i 0
  let b := s.getD j 0
  (s.set i b).set j a

/-- Loop body of hashids `_reorder`: the argument `n` is the current loop
index `i` of `for i in range(len(string) - 1, 0, -1)`, counting down to 1;
`index` and `isum` thread Python's `index` and `integer_sum`. -/
def pyReorderGo (salt : List Nat) : Nat → List Nat → Nat → Nat → List Nat
  | 0, s, _, _ => s
  | i + 1, s, index, isum =>
    let integer := salt.getD index 0
    let isum' := isum + integer
    let j := (integer + index + isum') % (i + 1)
    pyReorderGo salt i (listSwap s (i + 1) j) ((index + 1) % salt.length) isum'

/-- hashids `_reorder(string, salt)`: salt-driven sequence of swaps;
the empty salt leaves the string unchanged. -/
def pyReorder (s salt : List Nat) : List Nat :=
  if salt = [] then s else pyReorderGo salt (s.length - 1) s 0 0

/-- Fuel-indexed body of hashids `_hash`: structural recursion so that the
kernel can evaluate it; `pyHash` supplies sufficient fuel and `pyHash_eq`
recovers the loop's defining equation. -/
def pyHashFuel (alphabet : List Nat) : Nat → Nat → List Nat
  | 0, _ => []
  | fuel + 1, n =>
    if n / alphabet.length = 0 ∨ alphabet.length ≤ 1 then
      [alphabet.getD (n % alphabet.length) 0]
    else
      pyHashFuel alphabet fuel (n / alphabet.length) ++
        [alphabet.getD (n % alphabet.length) 0]

/-- hashids `_hash(number, alphabet)`: the base-`len(alphabet)` digits of
`number`, most significant first, each mapped through `alphabet`.  The
disjunct `alphabet.length ≤ 1` mirrors the fact that the Python loop only
terminates when the alphabet has at least two characters (every use below
has a 44-character alphabet). -/
def pyHash (n : Nat) (alphabet : List Nat) : List Nat :=
  pyHashFuel alphabet (n + 1) n

/-- Python `list.index` returning `none` instead of raising `ValueError`. -/
def pyIndexOf : List Nat → Nat → Option Nat
  | [], _ => none
  | x :: xs, c => if x = c then some 0 else (pyIndexOf xs c).map (· + 1)

/-- Accumulator form of hashids `_unhash`: Python's
`number *= len; number += position` fold, `none` when a character is not in
the alphabet (Python raises `ValueError`, caught by `decode`). -/
def pyUnhashFrom (alphabet : List Nat) : Nat → List Nat → Option Nat
  | acc, [] => some acc
  | acc, c :: rest =>
    match pyIndexOf alphabet c with
    | none => none
    | some pos => pyUnhashFrom alphabet (acc * alphabet.length + pos) rest

/-- hashids `_unhash(hashed, alphabet)`. -/
def pyUnhash (hashed alphabet : List Nat) : Option Nat :=
  pyUnhashFrom alphabet 0 hashed

/-- hashids `_split(string, splitters)`: split at every character belonging
to `splitters`, keeping empty parts; always yields at least one part. -/
def pySplit : List Nat → List Nat → List (List Nat)
  | [], _ => [[]]
  | c :: rest, seps =>
    if c ∈ seps then [] :: pySplit rest seps
    else
      match pySplit rest seps with
      | [] => [[c]]
      | p :: ps => (c :: p) :: ps

/-! ### Hashids codec: constructor (`Hashids.__init__`) -/

/-- Code points of the default hashids alphabet
`abcdefghijklmnopqrstuvwxyzABCDEFGHIJKLMNOPQRSTUVWXYZ1234567890`. -/
def ALPHABET62 : List Nat :=
  [97, 98, 99, 100, 101, 102, 103, 104, 105, 106, 107, 108, 109, 110, 111,
   112, 113, 114, 115, 116, 117, 118, 119, 120, 121, 122,
   65, 66, 67, 68, 69, 70, 71, 72, 73, 74, 75, 76, 77, 78, 79, 80, 81, 82,
   83, 84, 85, 86, 87, 88, 89, 90,
   49, 50, 51, 52, 53, 54, 55, 56, 57, 48]

/-- Code points of the hashids separator candidates `cfhistuCFHISTU`. -/
def SEPCHARS : List Nat :=
  [99, 102, 104, 105, 115, 116, 117, 67, 70, 72, 73, 83, 84, 85]

/-- Code points of the configured salt: `app.py` uses
`SECRET_KEY = os.getenv("SECRET_KEY", "Divi")` as the hashids salt. -/
def SALT : List Nat := [68, 105, 118, 105]

/-- `Hashids.__init__` for the default alphabet: returns the working
`(alphabet, separators, guards)` triple.  `ceil(n / 3.5)` is computed as
`(2n + 6) / 7` and `ceil(n / 12)` as `(n + 11) / 12` in `Nat`. -/
def hashidsSetup (salt : List Nat) : List Nat × List Nat × List Nat :=
  let seps0 := SEPCHARS.filter (fun c => ALPHABET62.contains c)
  let alph0 := (ALPHABET62.enum.filter
    (fun p => pyIndexOf ALPHABET62 p.2 == some p.1 && !(seps0.contains p.2))).map Prod.snd
  let seps1 := pyReorder seps0 salt
  let minSeps := (2 * alph0.length + 6) / 7
  let adjusted :=
    if seps1 = [] ∨ seps1.length < minSeps then
      let minSeps' := if minSeps = 1 then 2 else minSeps
      if seps1.length < minSeps' then
        let splitAt := minSeps' - seps1.length
        (alph0.drop splitAt, seps1 ++ alph0.take splitAt)
      else (alph0, seps1)
    else (alph0, seps1)
  let alph2 := pyReorder adjusted.1 salt
  let numGuards := (alph2.length + 11) / 12
  if alph2.length < 3 then
    (alph2, adjusted.2.drop numGuards, adjusted.2.take numGuards)
  else
    (alph2.drop numGuards, adjusted.2, alph2.take numGuards)

/-- Working alphabet of the configured codec (44 characters). -/
def ALPH : List Nat := (hashidsSetup SALT).1

/-- Separator characters of the configured codec (14 characters). -/
def SEPS : List Nat := (hashidsSetup SALT).2.1

/-- Guard characters of the configured codec (4 characters). -/
def GUARDS : List Nat := (hashidsSetup SALT).2.2

/-- `min_length=4`, fixed at `app.py:300`. -/
def MIN_LENGTH : Nat := 4

/-! ### Hashids codec: encoding -/

/-- Loop of hashids `_encode` over the values.  `lenA` is Python's
`len_alphabet`, captured once before the loop; returns the encoded string so
far together with the final (reordered) alphabet, which `_encode` passes on
to `_ensure_length`. -/
def pyEncodeGo (lottery : Nat) (salt seps : List Nat) (lenA : Nat) :
    List Nat → Nat → List Nat → List Nat → List Nat × List Nat
  | [], _, alph, enc => (enc, alph)
  | v :: vs, i, alph, enc =>
    let aSalt := (lottery :: (salt ++ alph)).take lenA
    let alph' := pyReorder alph aSalt
    let last := pyHash v alph'
    let v' := v % (last.getD 0 0 + i)
    let sep := seps.getD (v' % seps.length) 0
    pyEncodeGo lottery salt seps lenA vs (i + 1) alph' (enc ++ last ++ [sep])

/-- Padding loop of hashids `_ensure_length`.  The fuel bounds the `while`
loop; with `min_length = 4` the loop body is never reached (the guards alone
reach the minimum length). -/
def pyEnsureLoop (minLength splitAt : Nat) : Nat → List Nat → List Nat → List Nat
  | 0, _, enc => enc
  | fuel + 1, alph, enc =>
    if enc.length < minLength then
      let alph' := pyReorder alph alph
      let enc' := alph'.drop splitAt ++ enc ++ alph'.take splitAt
      let excess := enc'.length - minLength
      let enc2 := if 0 < excess then (enc'.drop (excess / 2)).take minLength else enc'
      pyEnsureLoop minLength splitAt fuel alph' enc2
    else enc

/-- hashids `_ensure_length(encoded, min_length, alphabet, guards, values_hash)`. -/
def pyEnsureLength (encoded : List Nat) (minLength : Nat)
    (alphabet guards : List Nat) (valuesHash : Nat) : List Nat :=
  let g1 := guards.getD ((valuesHash + encoded.getD 0 0) % guards.length) 0
  let e1 := g1 :: encoded
  let e2 :=
    if e1.length < minLength then
      e1 ++ [guards.getD ((valuesHash + e1.getD 2 0) % guards.length) 0]
    else e1
  pyEnsureLoop minLength (alphabet.length / 2) minLength alphabet e2

/-- hashids `_encode(values, salt, min_length, alphabet, separators, guards)`. -/
def pyEncodeRaw (values salt : List Nat) (minLength : Nat)
    (alphabet seps guards : List Nat) : List Nat :=
  let valuesHash := (values.enum.map (fun p => p.2 % (p.1 + 100))).sum
  let lottery := alphabet.getD (valuesHash % alphabet.length) 0
  let go := pyEncodeGo lottery salt seps alphabet.length values 0 alphabet [lottery]
  let encoded := go.1.dropLast
  if minLength ≤ encoded.length then encoded
  else pyEnsureLength encoded minLength go.2 guards valuesHash

/-- `Hashids.encode(*values)` of the configured codec: the empty value tuple
yields the empty string (all `Nat` values pass the `_is_uint` check). -/
def pyEncode (values : List Nat) : List Nat :=
  if values = [] then []
  else pyEncodeRaw values SALT MIN_LENGTH ALPH SEPS GUARDS

/-! ### Hashids codec: decoding -/

/-- Loop of hashids `_decode` over the separator-split parts, threading the
reordered alphabet; `none` models the `ValueError` from `_unhash`. -/
def pyDecodeGo (lottery : Nat) (salt : List Nat) :
    List (List Nat) → List Nat → Option (List Nat)
  | [], _ => some []
  | part :: parts, alph =>
    let aSalt := (lottery :: (salt ++ alph)).take alph.length
    let alph' := pyReorder alph aSalt
    match pyUnhash part alph' with
    | none => none
    | some n =>
      match pyDecodeGo lottery salt parts alph' with
      | none => none
      | some ns => some (n :: ns)

/-- hashids `_decode(hashid, salt, alphabet, separators, guards)`. -/
def pyDecodeRaw (hashid salt alphabet seps guards : List Nat) : Option (List Nat) :=
  let parts := pySplit hashid guards
  let body :=
    if 2 ≤ parts.length ∧ parts.length ≤ 3 then parts.getD 1 []
    else parts.getD 0 []
  match body with
  | [] => some []
  | lottery :: rest => pyDecodeGo lottery salt (pySplit rest seps) alphabet

/-- `Hashids.decode(hashid)` of the configured codec: empty input and
`ValueError` give the empty tuple, and a successfully restored tuple is kept
only if re-encoding it reproduces the input exactly. -/
def pyDecode (hashid : List Nat) : List Nat :=
  if hashid = [] then []
  else
    match pyDecodeRaw hashid SALT ALPH SEPS GUARDS with
    | none => []
    | some ns => if pyEncode ns = hashid then ns else []

/-! ### Python `str.strip` (as used on the submitted URL in `index`) -/

/-- ASCII whitespace stripped by Python `str.strip()`. -/
def PYSPACE : List Nat := [32, 9, 10, 13, 12, 11]

/-- Python `str.strip()` on ASCII data: drop whitespace from both ends. -/
def pyStrip (s : List Nat) : List Nat :=
  ((s.dropWhile (PYSPACE.contains ·)).reverse.dropWhile (PYSPACE.contains ·)).reverse

/-! ### Data model: the MySQL tables of `app.py`

`users(id, username UNIQUE, password)` and
`urls(id, original_url, user_id, created, clicks)`, with auto-increment
ids modelled by `nextUrlId` / `nextUserId`. -/

/-- One row of the `urls` table. -/
structure UrlRow where
  id : Nat
  original_url : List Nat
  user_id : Nat
  created : Nat
  clicks : Nat
  deriving Repr, DecidableEq

/-- One row of the `users` table. -/
structure UserRow where
  id : Nat
  username : List Nat
  password : List Nat
  deriving Repr, DecidableEq

/-- Database state: both tables plus their auto-increment counters. -/
structure DB where
  urls : List UrlRow
  users : List UserRow
  nextUrlId : Nat
  nextUserId : Nat
  deriving Repr, DecidableEq

/-- Database operations performed by a handler, recorded as a trace. -/
inductive DbOp where
  | readUrl (id : Nat)
  | writeClicks (id : Nat) (value : Nat)
  deriving Repr, DecidableEq

/-- `SELECT original_url, clicks FROM urls WHERE id = %s` (first matching row). -/
def findUrl (db : DB) (i : Nat) : Option UrlRow :=
  db.urls.find? (fun r => r.id = i)

/-- `UPDATE urls SET clicks = %s WHERE id = %s`. -/
def setClicks (db : DB) (i v : Nat) : DB :=
  { db with urls := db.urls.map (fun r => if r.id = i then { r with clicks := v } else r) }

/-- `insert_url(url, user_id)` (`app.py:318`): insert a fresh row with
`clicks = 0` and return `lastrowid`. -/
def insert_url (db : DB) (url : List Nat) (uid : Nat) (now : Nat) : Nat × DB :=
  let i := db.nextUrlId
  (i, { db with
        urls := db.urls ++ [⟨i, url, uid, now, 0⟩],
        nextUrlId := i + 1 })

/-! ### Configuration and external environment -/

/-- Environment-driven configuration of `app.py`. -/
structure AppConfig where
  useCloudFunction : Bool
  cloudFunctionUrl : List Nat
  hostUrl : List Nat
  gcsBucketName : List Nat
  deriving Repr, DecidableEq

/-- Outcome of the external world for one shorten request: whether the QR
render succeeds, whether the GCS client was initialized, whether the upload
round-trip succeeds, and the public URL it would yield. -/
structure GcsEnv where
  qrGenOk : Bool
  gcsClientOk : Bool
  gcsUploadOk : Bool
  gcsPublicUrl : List Nat
  deriving Repr, DecidableEq

/-- `upload_to_gcs(file_path, bucket_name, blob_name)` (`app.py:207`):
`None` when the client is missing or any exception occurs during the
upload, otherwise the public URL.  The file/bucket/blob arguments do not
influence the outcome in the model (they feed the external call). -/
def upload_to_gcs (env : GcsEnv) (filePath bucketName blobName : List Nat) :
    Option (List Nat) :=
  if !env.gcsClientOk then none
  else if env.gcsUploadOk then some env.gcsPublicUrl else none

/-- `get_short_url(url_id)` (`app.py:335`), already applied to the encoded
hashid: cloud-function base when forwarding is enabled, else the host URL. -/
def get_short_url (cfg : AppConfig) (hashid : List Nat) : List Nat :=
  if cfg.useCloudFunction && !cfg.cloudFunctionUrl.isEmpty then
    cfg.cloudFunctionUrl ++ (47 :: hashid)
  else cfg.hostUrl ++ hashid

/-! ### Shorten flow (`index` POST, `app.py:350`) -/

/-- Response of the `index` POST handler. -/
inductive ShortenResult where
  | loginRedirect
  | urlRequired
  | page (shortUrl : List Nat) (hashid : List Nat) (image : Option (List Nat))
  deriving Repr, DecidableEq

/-- Full outcome of one shorten request: the HTTP-level result, the new
database state, and whether a local temp QR file was created / removed. -/
structure ShortenOut where
  result : ShortenResult
  db : DB
  tempCreated : Bool
  tempRemoved : Bool
  deriving Repr, DecidableEq

/-- The `index` POST handler (`app.py:350`): require a session, strip the
submitted URL, reject empty, insert the row, encode the hashid, build the
short URL, then generate the QR and upload it when a bucket is configured.
The temp-file cleanup sits inside the `if qr_path and gcs_bucket_name:`
block of the source, which is what `tempRemoved` records. -/
def shorten (cfg : AppConfig) (env : GcsEnv) (db : DB)
    (sessionUser : Option Nat) (rawUrl : List Nat) (now : Nat) : ShortenOut :=
  match sessionUser with
  | none => ⟨.loginRedirect, db, false, false⟩
  | some uid =>
    let url := pyStrip rawUrl
    if url = [] then ⟨.urlRequired, db, false, false⟩
    else
      let ins := insert_url db url uid now
      let hashid := pyEncode [ins.1]
      let shortUrl := get_short_url cfg hashid
      if env.qrGenOk then
        if cfg.gcsBucketName ≠ [] then
          let result := upload_to_gcs env hashid cfg.gcsBucketName (hashid ++ [46, 112, 110, 103])
          ⟨.page shortUrl hashid result, ins.2, true, true⟩
        else ⟨.page shortUrl hashid none, ins.2, true, false⟩
      else ⟨.page shortUrl hashid none, ins.2, false, false⟩

/-! ### Redirect resolver (`url_redirect`, `app.py:398`) -/

/-- Response of the redirect resolver. -/
inductive RedirectResult where
  | redirect302 (target : List Nat)
  | notFound404
  deriving Repr, DecidableEq

/-- Outcome of one redirect request: HTTP result, new database state, and
the trace of database operations performed. -/
structure RedirectOut where
  result : RedirectResult
  db : DB
  ops : List DbOp
  deriving Repr, DecidableEq

/-- `url_redirect(id)` (`app.py:398`).  In forwarding mode the request is
proxied to the cloud function with no decode and no database access.
Locally: decode, 404 on failure before any database access; otherwise read
the row, 404 if absent, else write back `clicks + 1` (the value read plus
one) and respond 302 to the stored URL. -/
def url_redirect (cfg : AppConfig) (db : DB) (code : List Nat) : RedirectOut :=
  if cfg.useCloudFunction && !cfg.cloudFunctionUrl.isEmpty then
    ⟨.redirect302 (cfg.cloudFunctionUrl ++ (47 :: code)), db, []⟩
  else
    match pyDecode code with
    | [] => ⟨.notFound404, db, []⟩
    | i :: _ =>
      match findUrl db i with
      | none => ⟨.notFound404, db, [.readUrl i]⟩
      | some row =>
        ⟨.redirect302 row.original_url, setClicks db i (row.clicks + 1),
         [.readUrl i, .writeClicks i (row.clicks + 1)]⟩

/-- Sequential (no overlap) repetition of the same redirect request. -/
def redirectIter (cfg : AppConfig) (code : List Nat) : Nat → DB → DB
  | 0, db => db
  | n + 1, db => redirectIter cfg code n (url_redirect cfg db code).db

/-! ### Cloud-function resolver (`cloud-functions/url-redirect/main.py`) -/

/-- Path parsing of the cloud function: `request.path.strip('/')`, then the
last `/`-separated component when the path starts with `url-redirect/`. -/
def cfExtract (path : List Nat) : List Nat :=
  let s := ((path.dropWhile (· == 47)).reverse.dropWhile (· == 47)).reverse
  let marker : List Nat :=
    [117, 114, 108, 45, 114, 101, 100, 105, 114, 101, 99, 116, 47]
  if marker.isPrefixOf s then (pySplit s [47]).getLastD [] else s

/-- `url_redirect(request)` of the cloud function (`main.py:69`): extract
the hashid, 404 when it is missing or fails to decode (before any database
access), otherwise the same read-then-write click increment and 302. -/
def cf_url_redirect (db : DB) (path : List Nat) : RedirectOut :=
  let hashid := cfExtract path
  if hashid = [] then ⟨.notFound404, db, []⟩
  else
    match pyDecode hashid with
    | [] => ⟨.notFound404, db, []⟩
    | i :: _ =>
      match findUrl db i with
      | none => ⟨.notFound404, db, [.readUrl i]⟩
      | some row =>
        ⟨.redirect302 row.original_url, setClicks db i (row.clicks + 1),
         [.readUrl i, .writeClicks i (row.clicks + 1)]⟩

/-! ### Registration (`register`, `app.py:591`) -/

/-- Response of the `register` POST handler. -/
inductive RegisterResult where
  | missingFields
  | passwordMismatch
  | duplicateUsername
  | success
  deriving Repr, DecidableEq

/-- `register` POST (`app.py:591`), parametrized by the password hash
function (`hashlib.sha256(...).hexdigest()`, an external pure function):
validate the fields, check-then-insert on the username, insert the hashed
password. -/
def register (hashFn : List Nat → List Nat) (db : DB)
    (username passwd confirm : List Nat) : RegisterResult × DB :=
  if username = [] ∨ passwd = [] ∨ confirm = [] then (.missingFields, db)
  else if passwd ≠ confirm then (.passwordMismatch, db)
  else
    match db.users.find? (fun u => u.username = username) with
    | some _ => (.duplicateUsername, db)
    | none =>
      (.success,
       { db with
         users := db.users ++ [⟨db.nextUserId, username, hashFn passwd⟩],
         nextUserId := db.nextUserId + 1 })

/-! ### Stats (`stats`, `app.py:498`) -/

/-- Insert a row into a list kept in descending `id` order. -/
def insertDescById (r : UrlRow) : List UrlRow → List UrlRow
  | [] => [r]
  | x :: xs => if x.id ≤ r.id then r :: x :: xs else x :: insertDescById r xs

/-- Sort rows by descending `id` (the `ORDER BY id DESC` of the stats
query). -/
def sortByIdDesc (l : List UrlRow) : List UrlRow :=
  l.foldr insertDescById []

/-- The stats fetch:
`SELECT id, created, original_url, clicks FROM urls WHERE user_id = %s
ORDER BY id DESC LIMIT 100`. -/
def statsQuery (db : DB) (uid : Nat) : List UrlRow :=
  (sortByIdDesc (db.urls.filter (fun r => r.user_id = uid))).take 100

/-- Rendered stats page: the row sequence as shown to the caller plus the
aggregates. -/
structure StatsPage where
  urls : List UrlRow
  totalUrls : Nat
  totalClicks : Nat
  averageClicks : Nat
  hasMore : Bool
  deriving Repr, DecidableEq

/-- `stats` (`app.py:498`): one aggregate query, one `LIMIT 100` fetch in
descending id order, then `reversed(db_urls)` before display, and integer
floor division for the average (0 for zero links). -/
def stats (db : DB) (uid : Nat) : StatsPage :=
  let userUrls := db.urls.filter (fun r => r.user_id = uid)
  let totalCount := userUrls.length
  let totalClicks := (userUrls.map (fun r => r.clicks)).sum
  let shown := (statsQuery db uid).reverse
  { urls := shown,
    totalUrls := totalCount,
    totalClicks := totalClicks,
    averageClicks := if 0 < totalCount then totalClicks / totalCount else 0,
    hasMore := decide (shown.length < totalCount) }

/-! ### Scoped connection acquisition (`get_db_connection`, `app.py:124`) -/

/-- Outcome of the body run under `get_db_connection`: normal completion,
a `pymysql.Error`, or any other exception. -/
inductive Outcome (α : Type) where
  | ok (a : α)
  | dbErr
  | otherErr
  deriving Repr, DecidableEq

/-- Whether an outcome is a normal completion. -/
def Outcome.isOk {α : Type} : Outcome α → Bool
  | .ok _ => true
  | _ => false

/-- Connection lifecycle events, in the order they happen. -/
inductive ConnEvent where
  | acquire
  | rollback
  | release
  deriving Repr, DecidableEq

/-- `get_db_connection` (`app.py:124`) run around a body with the given
outcome: acquire from the pool (when the pool is available), roll back in
the `except` blocks on any exception, re-raise, and return the connection
to the pool in `finally` on every path on which it was acquired. -/
def get_db_connection {α : Type} (poolOk : Bool) (body : Outcome α) :
    Outcome α × List ConnEvent :=
  if poolOk then
    match body with
    | .ok a => (.ok a, [.acquire, .release])
    | .dbErr => (.dbErr, [.acquire, .rollback, .release])
    | .otherErr => (.otherErr, [.acquire, .rollback, .release])
  else (.otherErr, [])

/-! ### Health endpoint (`health`, `app.py:694`) -/

/-- Rendered health response. -/
structure HealthOut where
  status : Nat
  database : List Nat
  ops : List DbOp
  deriving Repr, DecidableEq

/-- Code points of `"connected"`. -/
def DB_CONNECTED : List Nat := [99, 111, 110, 110, 101, 99, 116, 101, 100]

/-- Code points of `"pool_not_initialized"`. -/
def DB_POOL_NOT_INITIALIZED : List Nat :=
  [112, 111, 111, 108, 95, 110, 111, 116, 95, 105, 110, 105, 116, 105, 97,
   108, 105, 122, 101, 100]

/-- `health` (`app.py:694`): reports on the pool object only, issuing no
database query; `dbReachable` (whether the database would answer) is
deliberately never consulted, exactly as in the source. -/
def health (poolInited gcsOk dbReachable : Bool) : HealthOut :=
  if poolInited then ⟨200, DB_CONNECTED, []⟩
  else ⟨503, DB_POOL_NOT_INITIALIZED, []⟩

/-! ### Lemmas: `_reorder` permutes its input -/

theorem cons_set_perm (t : List Nat) (m : Nat) (x : Nat) (hm : m < t.length) :
    List.Perm (t.getD m 0 :: t.set m x) (x :: t) := by
  induction t generalizing m with
  | nil => simp at hm
  | cons y u ih =>
    cases m with
    | zero => simpa using List.Perm.swap x y u
    | succ k =>
      simp only [List.getD_cons_succ, List.set_cons_succ]
      have hk : k < u.length := by simpa using hm
      exact (List.Perm.swap y (u.getD k 0) (u.set k x)).trans
        ((List.Perm.cons y (ih k hk)).trans (List.Perm.swap x y u))

theorem listSwap_perm (s : List Nat) (i j : Nat) (hi : i < s.length)
    (hj : j < s.length) : List.Perm (listSwap s i j) s := by
  induction s generalizing i j with
  | nil => simp at hi
  | cons x t ih =>
    cases i with
    | zero =>
      cases j with
      | zero => simp [listSwap]
      | succ m =>
        have hm : m < t.length := by simpa using hj
        simpa [listSwap] using cons_set_perm t m x hm
    | succ k =>
      cases j with
      | zero =>
        have hk : k < t.length := by simpa using hi
        simpa [listSwap] using cons_set_perm t k x hk
      | succ m =>
        have hk : k < t.length := by simpa using hi
        have hm : m < t.length := by simpa using hj
        have hstep : listSwap (x :: t) (k + 1) (m + 1) = x :: listSwap t k m := by
          simp [listSwap, List.getD_cons_succ, List.set_cons_succ]
        rw [hstep]
        exact List.Perm.cons x (ih k m hk hm)

theorem pyReorderGo_perm (salt : List Nat) :
    ∀ (i : Nat) (s : List Nat) (index isum : Nat), i < s.length →
      List.Perm (pyReorderGo salt i s index isum) s := by
  intro i
  induction i with
  | zero => intro s index isum _; simp [pyReorderGo]
  | succ k ih =>
    intro s index isum hi
    have hj : (salt.getD index 0 + index + (isum + salt.getD index 0)) % (k + 1) < s.length :=
      lt_of_lt_of_le (Nat.mod_lt _ (Nat.succ_pos k)) (Nat.le_of_lt hi)
    have hswap := listSwap_perm s (k + 1)
      ((salt.getD index 0 + index + (isum + salt.getD index 0)) % (k + 1)) hi hj
    have hlen : (listSwap s (k + 1)
        ((salt.getD index 0 + index + (isum + salt.getD index 0)) % (k + 1))).length
        = s.length := hswap.length_eq
    have hk : k < (listSwap s (k + 1)
        ((salt.getD index 0 + index + (isum + salt.getD index 0)) % (k + 1))).length := by
      rw [hlen]; exact Nat.lt_of_succ_lt hi
    exact (ih _ _ _ hk).trans hswap

theorem pyReorder_perm (s salt : List Nat) : List.Perm (pyReorder s salt) s := by
  unfold pyReorder
  split
  · exact List.Perm.refl s
  · cases hs : s with
    | nil => simp [hs, pyReorderGo]
    | cons x t =>
      have : s.length - 1 < s.length := by simp [hs]
      rw [← hs]
      exact pyReorderGo_perm salt (s.length - 1) s 0 0 this

/-! ### Lemmas: `_hash` and `_unhash` are inverse -/

theorem pyHashFuel_irrel (a : List Nat) :
    ∀ (n f1 f2 : Nat), n < f1 → n < f2 →
      pyHashFuel a f1 n = pyHashFuel a f2 n := by
  intro n
  induction n using Nat.strong_induction_on with
  | _ n ih =>
    intro f1 f2 h1 h2
    cases f1 with
    | zero => omega
    | succ k1 =>
      cases f2 with
      | zero => omega
      | succ k2 =>
        simp only [pyHashFuel]
        split
        · rfl
        · rename_i h
          push_neg at h
          have hn0 : 0 < n := by
            rcases Nat.eq_zero_or_pos n with h0 | h0
            · subst h0; simp [Nat.zero_div] at h
            · exact h0
          have hlt : n / a.length < n := Nat.div_lt_self hn0 h.2
          rw [ih (n / a.length) hlt k1 k2 (by omega) (by omega)]

theorem pyHash_eq (n : Nat) (a : List Nat) :
    pyHash n a =
      if n / a.length = 0 ∨ a.length ≤ 1 then [a.getD (n % a.length) 0]
      else pyHash (n / a.length) a ++ [a.getD (n % a.length) 0] := by
  show pyHashFuel a (n + 1) n = _
  simp only [pyHashFuel]
  split
  · rfl
  · rename_i h
    push_neg at h
    have hn0 : 0 < n := by
      rcases Nat.eq_zero_or_pos n with h0 | h0
      · subst h0; simp [Nat.zero_div] at h
      · exact h0
    have hlt : n / a.length < n := Nat.div_lt_self hn0 h.2
    rw [pyHashFuel_irrel a (n / a.length) n (n / a.length + 1) hlt
      (Nat.lt_succ_self _)]
    rfl

theorem pyHash_ne_nil (n : Nat) (a : List Nat) : pyHash n a ≠ [] := by
  rw [pyHash_eq]
  split
  · simp
  · simp

theorem pyHash_mem (a : List Nat) (ha : a ≠ []) :
    ∀ (n : Nat), ∀ c ∈ pyHash n a, c ∈ a := by
  have hpos : 0 < a.length := List.length_pos.mpr ha
  intro n
  induction n using Nat.strong_induction_on with
  | _ n ih =>
    intro c hc
    rw [pyHash_eq] at hc
    have hmem : a.getD (n % a.length) 0 ∈ a := by
      rw [List.getD_eq_getElem a 0 (Nat.mod_lt n hpos)]
      exact List.getElem_mem _
    split at hc
    · simp only [List.mem_singleton] at hc
      exact hc ▸ hmem
    · rename_i h
      push_neg at h
      have hn0 : 0 < n := by
        rcases Nat.eq_zero_or_pos n with h0 | h0
        · subst h0; simp [Nat.zero_div] at h
        · exact h0
      rcases List.mem_append.mp hc with h1 | h1
      · exact ih (n / a.length) (Nat.div_lt_self hn0 h.2) c h1
      · simp only [List.mem_singleton] at h1
        exact h1 ▸ hmem

theorem pyIndexOf_getD (a : List Nat) (ha : a.Nodup) :
    ∀ (k : Nat), k < a.length → pyIndexOf a (a.getD k 0) = some k := by
  induction a with
  | nil => intro k hk; simp at hk
  | cons x xs ih =>
    intro k hk
    cases k with
    | zero => simp [pyIndexOf]
    | succ m =>
      have hm : m < xs.length := by simpa using hk
      have hx : x ≠ xs.getD m 0 := by
        intro hcontra
        have : xs.getD m 0 ∈ xs := by
          rw [List.getD_eq_getElem xs 0 hm]; exact List.getElem_mem _
        exact (List.nodup_cons.mp ha).1 (hcontra ▸ this)
      simp only [List.getD_cons_succ, pyIndexOf, if_neg hx,
        ih (List.nodup_cons.mp ha).2 m hm, Option.map_some']

theorem pyUnhashFrom_append (a : List Nat) :
    ∀ (xs ys : List Nat) (acc : Nat),
      pyUnhashFrom a acc (xs ++ ys) =
        match pyUnhashFrom a acc xs with
        | none => none
        | some m => pyUnhashFrom a m ys := by
  intro xs
  induction xs with
  | nil => intro ys acc; rfl
  | cons c rest ih =>
    intro ys acc
    simp only [List.cons_append, pyUnhashFrom]
    cases pyIndexOf a c with
    | none => rfl
    | some pos => exact ih ys _

theorem pyUnhashFrom_pyHash (a : List Nat) (ha : a.Nodup) (h2 : 1 < a.length) :
    ∀ (n acc : Nat),
      pyUnhashFrom a acc (pyHash n a) =
        some (acc * a.length ^ (pyHash n a).length + n) := by
  intro n
  induction n using Nat.strong_induction_on with
  | _ n ih =>
    intro acc
    rw [pyHash_eq]
    split
    · rename_i h
      have hdiv : n / a.length = 0 := by omega
      have hlt : n < a.length := by
        by_contra hge
        have : 1 ≤ n / a.length := (Nat.one_le_div_iff (by omega)).mpr (by omega)
        omega
      have hmod : n % a.length = n := Nat.mod_eq_of_lt hlt
      simp only [hmod, pyUnhashFrom, pyIndexOf_getD a ha n hlt,
        List.length_singleton, pow_one]
    · rename_i h
      push_neg at h
      have hn0 : 0 < n := by
        rcases Nat.eq_zero_or_pos n with h0 | h0
        · subst h0; simp [Nat.zero_div] at h
        · exact h0
      have hql : n / a.length < n := Nat.div_lt_self hn0 h.2
      have hmodlt : n % a.length < a.length := Nat.mod_lt n (by omega)
      rw [pyUnhashFrom_append, ih (n / a.length) hql acc]
      simp only [pyUnhashFrom, pyIndexOf_getD a ha (n % a.length) hmodlt,
        List.length_append, List.length_singleton]
      congr 1
      have hdm : a.length * (n / a.length) + n % a.length = n := Nat.div_add_mod n a.length
      calc (acc * a.length ^ (pyHash (n / a.length) a).length + n / a.length) * a.length
            + n % a.length
          = acc * (a.length ^ (pyHash (n / a.length) a).length * a.length)
            + (a.length * (n / a.length) + n % a.length) := by ring
        _ = acc * a.length ^ ((pyHash (n / a.length) a).length + 1) + n := by
            rw [hdm, pow_succ]

theorem pyUnhash_pyHash (a : List Nat) (ha : a.Nodup) (h2 : 1 < a.length)
    (n : Nat) : pyUnhash (pyHash n a) a = some n := by
  simpa [pyUnhash] using pyUnhashFrom_pyHash a ha h2 n 0

/-! ### Lemmas: `_split` -/

theorem pySplit_of_disjoint (seps : List Nat) :
    ∀ (s : List Nat), (∀ c ∈ s, c ∉ seps) → pySplit s seps = [s] := by
  intro s
  induction s with
  | nil => intro _; rfl
  | cons c rest ih =>
    intro hdisj
    have hc : c ∉ seps := hdisj c (List.mem_cons_self c rest)
    have hrest := ih (fun x hx => hdisj x (List.mem_cons_of_mem c hx))
    simp [pySplit, hc, hrest]

theorem pySplit_cons_of_mem (seps : List Nat) (g : Nat) (hg : g ∈ seps)
    (t : List Nat) : pySplit (g :: t) seps = [] :: pySplit t seps := by
  have h1 : pySplit (g :: t) seps =
      if g ∈ seps then [] :: pySplit t seps
      else
        match pySplit t seps with
        | [] => [[g]]
        | p :: ps => (g :: p) :: ps := rfl
  rw [h1, if_pos hg]

theorem pySplit_append_sep (seps : List Nat) (g : Nat) (hg : g ∈ seps) :
    ∀ (s t : List Nat), (∀ c ∈ s, c ∉ seps) →
      pySplit (s ++ g :: t) seps = s :: pySplit t seps := by
  intro s
  induction s with
  | nil => intro t _; simpa using pySplit_cons_of_mem seps g hg t
  | cons c rest ih =>
    intro t hdisj
    have hc : c ∉ seps := hdisj c (List.mem_cons_self c rest)
    have hrest := ih t (fun x hx => hdisj x (List.mem_cons_of_mem c hx))
    simp [pySplit, hc, hrest]

/-! ### Concrete facts about the configured codec -/

section ConcreteFacts

attribute [local semireducible] listSwap

theorem ALPH_length : ALPH.length = 44 := by decide

theorem ALPH_nodup : ALPH.Nodup := by decide

theorem ALPH_disjoint_SEPS : ∀ c ∈ ALPH, c ∉ SEPS := by decide

theorem ALPH_disjoint_GUARDS : ∀ c ∈ ALPH, c ∉ GUARDS := by decide

theorem ALPH_ne_nil : ALPH ≠ [] := by decide

theorem GUARDS_ne_nil : GUARDS ≠ [] := by decide

end ConcreteFacts

theorem getD_mod_mem (l : List Nat) (hne : l ≠ []) (k : Nat) :
    l.getD (k % l.length) 0 ∈ l := by
  have hpos : 0 < l.length := List.length_pos.mpr hne
  rw [List.getD_eq_getElem l 0 (Nat.mod_lt k hpos)]
  exact List.getElem_mem _

/-! ### The encoding of a single value -/

/-- The lottery character chosen by `_encode` for the single value `id`
(`values_hash = id % 100`). -/
def lotteryOf (id : Nat) : Nat := ALPH.getD (id % 100 % ALPH.length) 0

/-- The working alphabet of the single `_encode` / `_decode` loop
iteration for `id`. -/
def alph1Of (id : Nat) : List Nat :=
  pyReorder ALPH ((lotteryOf id :: (SALT ++ ALPH)).take ALPH.length)

/-- The `_hash` digits of `id` under that alphabet. -/
def hashOf (id : Nat) : List Nat := pyHash id (alph1Of id)

/-- The guard-free body of the encoding of `id`: lottery character followed
by the hash digits. -/
def bodyOf (id : Nat) : List Nat := lotteryOf id :: hashOf id

theorem lotteryOf_mem (id : Nat) : lotteryOf id ∈ ALPH :=
  getD_mod_mem ALPH ALPH_ne_nil (id % 100)

theorem alph1Of_perm (id : Nat) : List.Perm (alph1Of id) ALPH :=
  pyReorder_perm ALPH _

theorem alph1Of_nodup (id : Nat) : (alph1Of id).Nodup :=
  ((alph1Of_perm id).nodup_iff).mpr ALPH_nodup

theorem alph1Of_length (id : Nat) : (alph1Of id).length = 44 :=
  (alph1Of_perm id).length_eq.trans ALPH_length

theorem hashOf_mem (id : Nat) : ∀ c ∈ hashOf id, c ∈ ALPH := by
  intro c hc
  have hne : alph1Of id ≠ [] := by
    intro h0
    have := alph1Of_length id
    rw [h0] at this
    simp at this
  exact (alph1Of_perm id).mem_iff.mp (pyHash_mem (alph1Of id) hne id c hc)

theorem bodyOf_disjoint_GUARDS (id : Nat) : ∀ c ∈ bodyOf id, c ∉ GUARDS := by
  intro c hc
  rcases List.mem_cons.mp hc with h | h
  · exact ALPH_disjoint_GUARDS c (h ▸ lotteryOf_mem id)
  · exact ALPH_disjoint_GUARDS c (hashOf_mem id c h)

theorem hashOf_disjoint_SEPS (id : Nat) : ∀ c ∈ hashOf id, c ∉ SEPS :=
  fun c hc => ALPH_disjoint_SEPS c (hashOf_mem id c hc)

theorem pyEncode_single (id : Nat) :
    pyEncode [id] =
      if MIN_LENGTH ≤ (bodyOf id).length then bodyOf id
      else pyEnsureLength (bodyOf id) MIN_LENGTH (alph1Of id) GUARDS (id % 100) := by
  have hdrop :
      (bodyOf id ++
        [SEPS.getD (id % ((hashOf id).getD 0 0 + 0) % SEPS.length) 0]).dropLast
      = bodyOf id := by
    rw [List.dropLast_concat]
  have hgo : pyEncodeGo (lotteryOf id) SALT SEPS ALPH.length [id] 0 ALPH [lotteryOf id]
      = (bodyOf id ++ [SEPS.getD (id % ((hashOf id).getD 0 0 + 0) % SEPS.length) 0],
         alph1Of id) := rfl
  have hraw : pyEncode [id] =
      (if MIN_LENGTH ≤
          ((pyEncodeGo (lotteryOf id) SALT SEPS ALPH.length [id] 0 ALPH
            [lotteryOf id]).1.dropLast).length
       then (pyEncodeGo (lotteryOf id) SALT SEPS ALPH.length [id] 0 ALPH
          [lotteryOf id]).1.dropLast
       else pyEnsureLength
         ((pyEncodeGo (lotteryOf id) SALT SEPS ALPH.length [id] 0 ALPH
            [lotteryOf id]).1.dropLast)
         MIN_LENGTH
         (pyEncodeGo (lotteryOf id) SALT SEPS ALPH.length [id] 0 ALPH
            [lotteryOf id]).2
         GUARDS (id % 100)) := rfl
  have hfst : ((bodyOf id ++
        [SEPS.getD (id % ((hashOf id).getD 0 0 + 0) % SEPS.length) 0],
        alph1Of id) : List Nat × List Nat).1
      = bodyOf id ++
        [SEPS.getD (id % ((hashOf id).getD 0 0 + 0) % SEPS.length) 0] := rfl
  have hsnd : ((bodyOf id ++
        [SEPS.getD (id % ((hashOf id).getD 0 0 + 0) % SEPS.length) 0],
        alph1Of id) : List Nat × List Nat).2 = alph1Of id := rfl
  rw [hraw, hgo, hfst, hsnd, hdrop]

/-! ### `_ensure_length` with `min_length = 4` -/

theorem pyEnsureLength_len3 (body : List Nat) (h3 : body.length = 3)
    (a : List Nat) (vh : Nat) :
    pyEnsureLength body MIN_LENGTH a GUARDS vh =
      GUARDS.getD ((vh + body.getD 0 0) % GUARDS.length) 0 :: body := by
  simp [pyEnsureLength, pyEnsureLoop, MIN_LENGTH, h3]

theorem pyEnsureLength_len2 (body : List Nat) (h2 : body.length = 2)
    (a : List Nat) (vh : Nat) :
    pyEnsureLength body MIN_LENGTH a GUARDS vh =
      GUARDS.getD ((vh + body.getD 0 0) % GUARDS.length) 0 ::
        (body ++ [GUARDS.getD ((vh + body.getD 1 0) % GUARDS.length) 0]) := by
  rcases body with _ | ⟨x, _ | ⟨y, _ | ⟨z, t⟩⟩⟩ <;> simp_all [pyEnsureLength, pyEnsureLoop, MIN_LENGTH]

/-! ### Decoding what `_encode` produced -/

theorem pyDecodeGo_single (id : Nat) :
    pyDecodeGo (lotteryOf id) SALT (pySplit (hashOf id) SEPS) ALPH = some [id] := by
  have hsplit : pySplit (hashOf id) SEPS = [hashOf id] :=
    pySplit_of_disjoint SEPS (hashOf id) (hashOf_disjoint_SEPS id)
  rw [hsplit]
  have h2 : 1 < (alph1Of id).length := by rw [alph1Of_length]; omega
  simp only [pyDecodeGo]
  rw [show pyReorder ALPH ((lotteryOf id :: (SALT ++ ALPH)).take ALPH.length)
        = alph1Of id from rfl,
      show pyUnhash (hashOf id) (alph1Of id) = some id from
        pyUnhash_pyHash (alph1Of id) (alph1Of_nodup id) h2 id]

theorem pyDecodeRaw_of_parts (s : List Nat) (id : Nat) (parts : List (List Nat))
    (hparts : pySplit s GUARDS = parts)
    (hbody : (if 2 ≤ parts.length ∧ parts.length ≤ 3 then parts.getD 1 []
              else parts.getD 0 []) = bodyOf id) :
    pyDecodeRaw s SALT ALPH SEPS GUARDS = some [id] := by
  simp only [pyDecodeRaw, hparts, hbody, bodyOf]
  exact pyDecodeGo_single id

theorem pyEncode_single_decodes (id : Nat) :
    pyDecodeRaw (pyEncode [id]) SALT ALPH SEPS GUARDS = some [id] ∧
      pyEncode [id] ≠ [] := by
  have hhlen : 0 < (hashOf id).length :=
    List.length_pos.mpr (pyHash_ne_nil id (alph1Of id))
  have hblen : (bodyOf id).length = (hashOf id).length + 1 := by
    simp [bodyOf]
  rw [pyEncode_single id]
  split
  · rename_i hge
    have hsplit : pySplit (bodyOf id) GUARDS = [bodyOf id] :=
      pySplit_of_disjoint GUARDS (bodyOf id) (bodyOf_disjoint_GUARDS id)
    exact ⟨pyDecodeRaw_of_parts (bodyOf id) id [bodyOf id] hsplit (by simp),
      by simp [bodyOf]⟩
  · rename_i hlt
    have hcases : (hashOf id).length = 1 ∨ (hashOf id).length = 2 := by
      simp only [MIN_LENGTH] at hlt
      omega
    rcases hcases with h1 | h2
    · -- body has length 2: two guards are added
      have hb2 : (bodyOf id).length = 2 := by omega
      rw [pyEnsureLength_len2 (bodyOf id) hb2 (alph1Of id) (id % 100)]
      have hg1 : GUARDS.getD ((id % 100 + (bodyOf id).getD 0 0) % GUARDS.length) 0
          ∈ GUARDS := getD_mod_mem GUARDS GUARDS_ne_nil _
      have hg2 : GUARDS.getD ((id % 100 + (bodyOf id).getD 1 0) % GUARDS.length) 0
          ∈ GUARDS := getD_mod_mem GUARDS GUARDS_ne_nil _
      have hsplit : pySplit
          (GUARDS.getD ((id % 100 + (bodyOf id).getD 0 0) % GUARDS.length) 0 ::
            (bodyOf id ++
              [GUARDS.getD ((id % 100 + (bodyOf id).getD 1 0) % GUARDS.length) 0]))
          GUARDS = [[], bodyOf id, []] := by
        rw [pySplit_cons_of_mem GUARDS _ hg1,
          pySplit_append_sep GUARDS _ hg2 (bodyOf id) []
            (bodyOf_disjoint_GUARDS id)]
        rfl
      exact ⟨pyDecodeRaw_of_parts _ id [[], bodyOf id, []] hsplit (by simp),
        by simp⟩
    · -- body has length 3: one guard is prepended
      have hb3 : (bodyOf id).length = 3 := by omega
      rw [pyEnsureLength_len3 (bodyOf id) hb3 (alph1Of id) (id % 100)]
      have hg1 : GUARDS.getD ((id % 100 + (bodyOf id).getD 0 0) % GUARDS.length) 0
          ∈ GUARDS := getD_mod_mem GUARDS GUARDS_ne_nil _
      have hsplit : pySplit
          (GUARDS.getD ((id % 100 + (bodyOf id).getD 0 0) % GUARDS.length) 0 ::
            bodyOf id) GUARDS = [[], bodyOf id] := by
        rw [pySplit_cons_of_mem GUARDS _ hg1,
          pySplit_of_disjoint GUARDS (bodyOf id) (bodyOf_disjoint_GUARDS id)]
      exact ⟨pyDecodeRaw_of_parts _ id [[], bodyOf id] hsplit (by simp),
        by simp⟩

/-- Round trip of the configured codec on a single value: the heart of the
hashids invariant `decode(encode(id)) == id`. -/
theorem pyDecode_pyEncode (id : Nat) : pyDecode (pyEncode [id]) = [id] := by
  obtain ⟨hraw, hne⟩ := pyEncode_single_decodes id
  simp only [pyDecode, if_neg hne, hraw, if_pos rfl, eq_self_iff_true, if_true]

/-- Any string `decode` accepts is literally an `encode` output: the
re-encode check of `Hashids.decode`. -/
theorem pyDecode_absent_or_encoded (s : List Nat) :
    pyDecode s = [] ∨ pyEncode (pyDecode s) = s := by
  unfold pyDecode
  split
  · exact Or.inl rfl
  · cases hraw : pyDecodeRaw s SALT ALPH SEPS GUARDS with
    | none => exact Or.inl rfl
    | some ns =>
      by_cases henc : pyEncode ns = s
      · right
        simp [henc]
      · left
        simp [henc]

/-! ### Lemmas: the database helpers -/

theorem find?_map_setClicks (l : List UrlRow) (i v : Nat) (row : UrlRow)
    (h : l.find? (fun r => r.id = i) = some row) :
    (l.map (fun r => if r.id = i then { r with clicks := v } else r)).find?
      (fun r => r.id = i) = some { row with clicks := v } := by
  induction l with
  | nil => simp at h
  | cons x xs ih =>
    by_cases hx : x.id = i
    · rw [List.find?_cons_of_pos _ (by simp [hx])] at h
      injection h with h
      subst h
      simp only [List.map_cons, if_pos hx]
      exact List.find?_cons_of_pos _ (by simp [hx])
    · rw [List.find?_cons_of_neg _ (by simp [hx])] at h
      simp only [List.map_cons, if_neg hx]
      rw [List.find?_cons_of_neg _ (by simp [hx])]
      exact ih h

theorem findUrl_setClicks (db : DB) (i v : Nat) (row : UrlRow)
    (h : findUrl db i = some row) :
    findUrl (setClicks db i v) i = some { row with clicks := v } :=
  find?_map_setClicks db.urls i v row h

theorem find?_append_none {α : Type} (p : α → Bool) (l₁ l₂ : List α)
    (h : l₁.find? p = none) : (l₁ ++ l₂).find? p = l₂.find? p := by
  induction l₁ with
  | nil => rfl
  | cons x xs ih =>
    rw [List.find?_eq_none] at h
    have hx : ¬ p x = true := h x (List.mem_cons_self x xs)
    rw [List.cons_append, List.find?_cons_of_neg _ hx]
    exact ih (List.find?_eq_none.mpr (fun y hy => h y (List.mem_cons_of_mem x hy)))

theorem findUrl_insert (db : DB) (url : List Nat) (uid now : Nat)
    (hfresh : ∀ r ∈ db.urls, r.id < db.nextUrlId) :
    findUrl (insert_url db url uid now).2 db.nextUrlId =
      some ⟨db.nextUrlId, url, uid, now, 0⟩ := by
  have hnone : db.urls.find? (fun r => r.id = db.nextUrlId) = none := by
    rw [List.find?_eq_none]
    intro r hr
    simp only [decide_eq_true_eq]
    exact Nat.ne_of_lt (hfresh r hr)
  show (db.urls ++ [(⟨db.nextUrlId, url, uid, now, 0⟩ : UrlRow)]).find?
      (fun r => r.id = db.nextUrlId) = _
  rw [find?_append_none _ _ _ hnone]
  exact List.find?_cons_of_pos _ (by simp)

/-! ### Lemmas: the local redirect resolver -/

theorem url_redirect_local (cfg : AppConfig) (db : DB) (code : List Nat)
    (i : Nat) (rest : List Nat) (row : UrlRow)
    (hlocal : cfg.useCloudFunction = false)
    (hdec : pyDecode code = i :: rest)
    (hfind : findUrl db i = some row) :
    url_redirect cfg db code =
      ⟨.redirect302 row.original_url, setClicks db i (row.clicks + 1),
       [.readUrl i, .writeClicks i (row.clicks + 1)]⟩ := by
  simp only [url_redirect, hlocal, Bool.false_and, Bool.false_eq_true,
    if_false, hdec, hfind]

theorem url_redirect_decode_fail (cfg : AppConfig) (db : DB) (code : List Nat)
    (hlocal : cfg.useCloudFunction = false)
    (hdec : pyDecode code = []) :
    url_redirect cfg db code = ⟨.notFound404, db, []⟩ := by
  simp only [url_redirect, hlocal, Bool.false_and, Bool.false_eq_true,
    if_false, hdec]

theorem cf_url_redirect_decode_fail (db : DB) (path : List Nat)
    (hdec : pyDecode (cfExtract path) = []) :
    cf_url_redirect db path = ⟨.notFound404, db, []⟩ := by
  unfold cf_url_redirect
  by_cases h0 : cfExtract path = []
  · rw [if_pos h0]
  · rw [if_neg h0, hdec]

theorem redirectIter_clicks (cfg : AppConfig) (code : List Nat) (i : Nat)
    (rest : List Nat) (hlocal : cfg.useCloudFunction = false)
    (hdec : pyDecode code = i :: rest) :
    ∀ (n : Nat) (db : DB) (row : UrlRow), findUrl db i = some row →
      findUrl (redirectIter cfg code n db) i =
        some { row with clicks := row.clicks + n } := by
  intro n
  induction n with
  | zero =>
    intro db row h
    simpa [redirectIter] using h
  | succ n ih =>
    intro db row h
    show findUrl (redirectIter cfg code n (url_redirect cfg db code).db) i = _
    rw [url_redirect_local cfg db code i rest row hlocal hdec h]
    have hstep : findUrl (setClicks db i (row.clicks + 1)) i =
        some { row with clicks := row.clicks + 1 } :=
      findUrl_setClicks db i (row.clicks + 1) row h
    have := ih (setClicks db i (row.clicks + 1)) { row with clicks := row.clicks + 1 } hstep
    simpa [Nat.add_assoc, Nat.add_comm 1 n] using this

/-! ### Lemmas: registration -/

theorem register_success (hashFn : List Nat → List Nat) (db : DB)
    (u p c : List Nat) (db' : DB)
    (h : register hashFn db u p c = (.success, db')) :
    u ≠ [] ∧ db.users.find? (fun r => r.username = u) = none ∧
      db'.users = db.users ++ [⟨db.nextUserId, u, hashFn p⟩] := by
  unfold register at h
  split at h
  · simp at h
  · split at h
    · simp at h
    · rename_i hfields _
      cases hfind : db.users.find? (fun r => r.username = u) with
      | some w => rw [hfind] at h; simp at h
      | none =>
        rw [hfind] at h
        refine ⟨fun hu => hfields (Or.inl hu), rfl, ?_⟩
        have := (Prod.mk.injEq _ _ _ _).mp h
        rw [← this.2]

/-! ### Lemmas: the shorten flow -/

/-- The hashid carried by a `page` response. -/
def ShortenResult.hashidOf : ShortenResult → Option (List Nat)
  | .page _ h _ => some h
  | _ => none

theorem shorten_db (cfg : AppConfig) (env : GcsEnv) (db : DB) (uid : Nat)
    (rawUrl : List Nat) (now : Nat) (hurl : pyStrip rawUrl ≠ []) :
    (shorten cfg env db (some uid) rawUrl now).db =
      (insert_url db (pyStrip rawUrl) uid now).2 := by
  simp only [shorten]
  rw [if_neg hurl]
  split
  · split
    · rfl
    · rfl
  · rfl

theorem shorten_hashid (cfg : AppConfig) (env : GcsEnv) (db : DB) (uid : Nat)
    (rawUrl : List Nat) (now : Nat) (hurl : pyStrip rawUrl ≠ []) :
    (shorten cfg env db (some uid) rawUrl now).result.hashidOf =
      some (pyEncode [db.nextUrlId]) := by
  simp only [shorten]
  rw [if_neg hurl]
  split
  · split
    · rfl
    · rfl
  · rfl

theorem shorten_result_page (cfg : AppConfig) (env : GcsEnv) (db : DB)
    (uid : Nat) (rawUrl : List Nat) (now : Nat) (hurl : pyStrip rawUrl ≠ [])
    (hfail : env.gcsClientOk = false ∨ env.gcsUploadOk = false) :
    (shorten cfg env db (some uid) rawUrl now).result =
      .page (get_short_url cfg (pyEncode [db.nextUrlId]))
        (pyEncode [db.nextUrlId]) none := by
  have hup : ∀ fp bn bl, upload_to_gcs env fp bn bl = none := by
    intro fp bn bl
    unfold upload_to_gcs
    rcases hfail with h | h <;> simp [h]
  simp only [shorten]
  rw [if_neg hurl]
  split
  · split
    · rw [hup]
      rfl
    · rfl
  · rfl

theorem shorten_tempRemoved (cfg : AppConfig) (env : GcsEnv) (db : DB)
    (su : Option Nat) (rawUrl : List Nat) (now : Nat) :
    (shorten cfg env db su rawUrl now).tempRemoved =
      ((shorten cfg env db su rawUrl now).tempCreated &&
        !cfg.gcsBucketName.isEmpty) := by
  cases su with
  | none => simp [shorten]
  | some uid =>
    simp only [shorten]
    by_cases hurl : pyStrip rawUrl = []
    · rw [if_pos hurl]
      simp
    · rw [if_neg hurl]
      by_cases hq : env.qrGenOk = true <;>
        by_cases hb : cfg.gcsBucketName = [] <;>
          simp [hq, hb, List.isEmpty_iff]

/-! ### Lemmas: stats ordering -/

theorem mem_insertDescById (r y : UrlRow) (l : List UrlRow)
    (h : y ∈ insertDescById r l) : y = r ∨ y ∈ l := by
  induction l with
  | nil => simpa [insertDescById] using h
  | cons x xs ih =>
    unfold insertDescById at h
    split at h
    · rcases List.mem_cons.mp h with h1 | h1
      · exact Or.inl h1
      · exact Or.inr h1
    · rcases List.mem_cons.mp h with h1 | h1
      · exact Or.inr (h1 ▸ List.mem_cons_self x xs)
      · rcases ih h1 with h2 | h2
        · exact Or.inl h2
        · exact Or.inr (List.mem_cons_of_mem x h2)

theorem pairwise_insertDescById (r : UrlRow) (l : List UrlRow)
    (h : l.Pairwise (fun a b => b.id ≤ a.id)) :
    (insertDescById r l).Pairwise (fun a b => b.id ≤ a.id) := by
  induction l with
  | nil => simp [insertDescById]
  | cons x xs ih =>
    rw [List.pairwise_cons] at h
    unfold insertDescById
    split
    · rename_i hle
      rw [List.pairwise_cons]
      refine ⟨?_, List.pairwise_cons.mpr h⟩
      intro y hy
      rcases List.mem_cons.mp hy with h1 | h1
      · exact h1 ▸ hle
      · exact le_trans (h.1 y h1) hle
    · rename_i hgt
      rw [List.pairwise_cons]
      refine ⟨?_, ih h.2⟩
      intro y hy
      rcases mem_insertDescById r y xs hy with h1 | h1
      · subst h1
        omega
      · exact h.1 y h1

theorem sortByIdDesc_pairwise (l : List UrlRow) :
    (sortByIdDesc l).Pairwise (fun a b => b.id ≤ a.id) := by
  induction l with
  | nil => simp [sortByIdDesc]
  | cons x xs ih => exact pairwise_insertDescById x (sortByIdDesc xs) ih

theorem statsQuery_pairwise (db : DB) (uid : Nat) :
    (statsQuery db uid).Pairwise (fun a b => b.id ≤ a.id) :=
  (sortByIdDesc_pairwise (db.urls.filter (fun r => r.user_id = uid))).sublist
    (List.take_sublist 100 _)

theorem stats_urls_shown (db : DB) (uid : Nat) :
    (stats db uid).urls = (statsQuery db uid).reverse := rfl

theorem stats_shown_ascending (db : DB) (uid : Nat) :
    ((stats db uid).urls.map UrlRow.id).Pairwise (· ≤ ·) := by
  rw [stats_urls_shown, List.pairwise_map, List.pairwise_reverse]
  exact statsQuery_pairwise db uid

/-! ### The claims -/

/-- Claim C1: for every positive integer id, decoding the hashid token
produced by `encode` under the configured salt and min-length returns
exactly that id; and decode only ever accepts exact `encode` outputs — for
any string not produced by `encode` it returns the empty (absent) result,
as a total function (never raises). -/
theorem claim_C1 :
    (∀ id : Nat, 0 < id → pyDecode (pyEncode [id]) = [id]) ∧
    (∀ s : List Nat, pyDecode s = [] ∨ pyEncode (pyDecode s) = s) :=
  ⟨fun id _ => pyDecode_pyEncode id, pyDecode_absent_or_encoded⟩

/-- Witness for C1 at id 3. -/
theorem claim_C1_witness : 0 < 3 ∧ pyDecode (pyEncode [3]) = [3] :=
  ⟨by decide, claim_C1.1 3 (by decide)⟩

/-- Claim C2: a locally resolved redirect of a code that decodes to a
present row reads the current clicks value, writes back that value plus
one, and responds 302 to the stored URL; after n sequential redirects the
clicks column has increased by exactly n, each of them responding 302 to
the same stored URL. -/
theorem claim_C2 (cfg : AppConfig) (db : DB) (code : List Nat) (i : Nat)
    (rest : List Nat) (row : UrlRow)
    (hlocal : cfg.useCloudFunction = false)
    (hdec : pyDecode code = i :: rest)
    (hfind : findUrl db i = some row) :
    (url_redirect cfg db code).result = .redirect302 row.original_url ∧
    (url_redirect cfg db code).ops =
      [.readUrl i, .writeClicks i (row.clicks + 1)] ∧
    findUrl (url_redirect cfg db code).db i =
      some { row with clicks := row.clicks + 1 } ∧
    (∀ n, findUrl (redirectIter cfg code n db) i =
      some { row with clicks := row.clicks + n }) ∧
    (∀ n, (url_redirect cfg (redirectIter cfg code n db) code).result =
      .redirect302 row.original_url) := by
  have hloc := url_redirect_local cfg db code i rest row hlocal hdec hfind
  refine ⟨by rw [hloc], by rw [hloc], ?_, ?_, ?_⟩
  · rw [hloc]
    exact findUrl_setClicks db i (row.clicks + 1) row hfind
  · exact fun n => redirectIter_clicks cfg code i rest hlocal hdec n db row hfind
  · intro n
    have hinv := redirectIter_clicks cfg code i rest hlocal hdec n db row hfind
    rw [url_redirect_local cfg _ code i rest _ hlocal hdec hinv]

/-- Witness for C2: one row with 5 clicks, redirected once and three times
through the code encoding id 1. -/
theorem claim_C2_witness :
    (url_redirect ⟨false, [], [], []⟩ ⟨[⟨1, [104, 116], 7, 0, 5⟩], [], 2, 1⟩
      (pyEncode [1])).result = .redirect302 [104, 116] ∧
    findUrl (redirectIter ⟨false, [], [], []⟩ (pyEncode [1]) 3
      ⟨[⟨1, [104, 116], 7, 0, 5⟩], [], 2, 1⟩) 1 = some ⟨1, [104, 116], 7, 0, 8⟩ := by
  have h := claim_C2 ⟨false, [], [], []⟩ ⟨[⟨1, [104, 116], 7, 0, 5⟩], [], 2, 1⟩
    (pyEncode [1]) 1 [] ⟨1, [104, 116], 7, 0, 5⟩ rfl (pyDecode_pyEncode 1) (by decide)
  exact ⟨h.1, h.2.2.2.1 3⟩

/-- Claim C3 counterexample: the handler strips the submitted URL before
storing it, so submitting the non-empty string `"a "` (`[97, 32]`) and
resolving the returned code redirects to `"a"` (`[97]`), which is not
byte-identical to the input. -/
theorem claim_C3_counterexample :
    (shorten ⟨false, [], [104], []⟩ ⟨false, false, false, []⟩ ⟨[], [], 1, 1⟩
      (some 7) [97, 32] 0).result.hashidOf = some (pyEncode [1]) ∧
    (url_redirect ⟨false, [], [104], []⟩
      (shorten ⟨false, [], [104], []⟩ ⟨false, false, false, []⟩ ⟨[], [], 1, 1⟩
        (some 7) [97, 32] 0).db
      (pyEncode [1])).result = .redirect302 [97] ∧
    RedirectResult.redirect302 [97] ≠ .redirect302 [97, 32] := by
  refine ⟨?_, ?_, ?_⟩
  · exact shorten_hashid _ _ _ _ _ _ (by decide)
  · rw [shorten_db _ _ _ _ _ _ (by decide)]
    rw [url_redirect_local _ _ _ 1 [] ⟨1, [97], 7, 0, 0⟩ rfl
      (pyDecode_pyEncode 1) (by decide)]
  · decide

/-- Claim C3 as amended: for every URL that is non-empty after stripping,
the shorten flow returns the code encoding the fresh row id, and resolving
that code redirects to the *stripped* submitted URL (byte-identical to the
input exactly when the input carries no leading/trailing whitespace). -/
theorem claim_C3_amended (cfg : AppConfig) (env : GcsEnv) (db : DB)
    (uid : Nat) (rawUrl : List Nat) (now : Nat)
    (hlocal : cfg.useCloudFunction = false)
    (hfresh : ∀ r ∈ db.urls, r.id < db.nextUrlId)
    (hurl : pyStrip rawUrl ≠ []) :
    (shorten cfg env db (some uid) rawUrl now).result.hashidOf =
      some (pyEncode [db.nextUrlId]) ∧
    (url_redirect cfg (shorten cfg env db (some uid) rawUrl now).db
      (pyEncode [db.nextUrlId])).result = .redirect302 (pyStrip rawUrl) := by
  refine ⟨shorten_hashid cfg env db uid rawUrl now hurl, ?_⟩
  rw [shorten_db cfg env db uid rawUrl now hurl]
  rw [url_redirect_local cfg _ (pyEncode [db.nextUrlId]) db.nextUrlId []
    ⟨db.nextUrlId, pyStrip rawUrl, uid, now, 0⟩ hlocal
    (pyDecode_pyEncode db.nextUrlId)
    (findUrl_insert db (pyStrip rawUrl) uid now hfresh)]

/-- Witness for the amended C3 at the URL `"hi"` on an empty store. -/
theorem claim_C3_amended_witness :
    (shorten ⟨false, [], [104], []⟩ ⟨true, true, true, [117]⟩ ⟨[], [], 1, 1⟩
      (some 7) [104, 105] 0).result.hashidOf = some (pyEncode [1]) ∧
    (url_redirect ⟨false, [], [104], []⟩
      (shorten ⟨false, [], [104], []⟩ ⟨true, true, true, [117]⟩ ⟨[], [], 1, 1⟩
        (some 7) [104, 105] 0).db
      (pyEncode [1])).result = .redirect302 [104, 105] :=
  claim_C3_amended ⟨false, [], [104], []⟩ ⟨true, true, true, [117]⟩
    ⟨[], [], 1, 1⟩ 7 [104, 105] 0 rfl (by simp) (by decide)

/-- Claim C4: whenever decode fails on the requested code, both the local
resolver and the cloud-function resolver answer 404 with no database
operation performed and the store unchanged. -/
theorem claim_C4 :
    (∀ (cfg : AppConfig) (db : DB) (code : List Nat),
      cfg.useCloudFunction = false → pyDecode code = [] →
        url_redirect cfg db code = ⟨.notFound404, db, []⟩) ∧
    (∀ (db : DB) (path : List Nat), pyDecode (cfExtract path) = [] →
        cf_url_redirect db path = ⟨.notFound404, db, []⟩) :=
  ⟨fun cfg db code h1 h2 => url_redirect_decode_fail cfg db code h1 h2,
   fun db path h => cf_url_redirect_decode_fail db path h⟩

/-- The code points of `doesnotexist123`, the spec's sample foreign code. -/
def DNE : List Nat :=
  [100, 111, 101, 115, 110, 111, 116, 101, 120, 105, 115, 116, 49, 50, 51]

/-- Claim C5: the scoped connection acquisition returns the body's outcome
unchanged, releases the connection as the final event on every path on
which it was acquired, and on any exception performs a rollback before the
release. -/
theorem claim_C5 {α : Type} (body : Outcome α) :
    (get_db_connection true body).1 = body ∧
    (get_db_connection true body).2 =
      (if body.isOk then [ConnEvent.acquire, ConnEvent.release]
       else [ConnEvent.acquire, ConnEvent.rollback, ConnEvent.release]) := by
  cases body <;> simp [get_db_connection, Outcome.isOk]

/-- Claim C6: after a successful registration of a username, a second
sequential attempt with the same username is rejected as a duplicate and
leaves the users table exactly as it was. -/
theorem claim_C6 (hashFn : List Nat → List Nat) (db : DB) (u p c : List Nat)
    (db' : DB) (hsucc : register hashFn db u p c = (.success, db'))
    (p' : List Nat) (hp' : p' ≠ []) :
    register hashFn db' u p' p' = (.duplicateUsername, db') := by
  obtain ⟨hu, hnone, husers⟩ := register_success hashFn db u p c db' hsucc
  unfold register
  rw [if_neg (by simp [hu, hp'])]
  rw [if_neg (by simp)]
  rw [husers, find?_append_none _ _ _ hnone,
    List.find?_cons_of_pos _ (by simp)]

/-- Witness for C6: registering `"u"` twice on an empty store. -/
theorem claim_C6_witness :
    register (fun x => x) ⟨[], [⟨1, [117], [112]⟩], 1, 2⟩ [117] [113] [113]
      = (.duplicateUsername, ⟨[], [⟨1, [117], [112]⟩], 1, 2⟩) :=
  claim_C6 (fun x => x) ⟨[], [], 1, 1⟩ [117] [112] [112]
    ⟨[], [⟨1, [117], [112]⟩], 1, 2⟩ (by decide) [113] (by decide)

/-- Claim C7: when the store client is unconfigured or the upload fails,
`upload_to_gcs` returns the no-value result instead of raising, and the
shorten request still succeeds with its short URL, the QR display
degrading to the unavailable marker. -/
theorem claim_C7 (cfg : AppConfig) (env : GcsEnv) (db : DB) (uid : Nat)
    (rawUrl : List Nat) (now : Nat)
    (hfail : env.gcsClientOk = false ∨ env.gcsUploadOk = false)
    (hurl : pyStrip rawUrl ≠ []) :
    (∀ fp bn bl, upload_to_gcs env fp bn bl = none) ∧
    (shorten cfg env db (some uid) rawUrl now).result =
      .page (get_short_url cfg (pyEncode [db.nextUrlId]))
        (pyEncode [db.nextUrlId]) none := by
  refine ⟨?_, shorten_result_page cfg env db uid rawUrl now hurl hfail⟩
  intro fp bn bl
  unfold upload_to_gcs
  rcases hfail with h | h <;> simp [h]

/-- Witness for C7: configured bucket, initialized client, failing upload. -/
theorem claim_C7_witness :
    upload_to_gcs ⟨true, true, false, [117]⟩ [1] [98] [2] = none ∧
    (shorten ⟨false, [], [104], [98]⟩ ⟨true, true, false, [117]⟩ ⟨[], [], 1, 1⟩
      (some 7) [104] 0).result =
      .page (get_short_url ⟨false, [], [104], [98]⟩ (pyEncode [1]))
        (pyEncode [1]) none := by
  have h := claim_C7 ⟨false, [], [104], [98]⟩ ⟨true, true, false, [117]⟩
    ⟨[], [], 1, 1⟩ 7 [104] 0 (Or.inr rfl) (by decide)
  exact ⟨h.1 [1] [98] [2], h.2⟩

/-- Claim C8 counterexample: a user with two links (ids 1 and 2, created
at 0 and 1): the sequence shown by the stats page lists the older link
first (created values `[0, 1]`), so the most recently created link does
not appear first. -/
theorem claim_C8_counterexample :
    ((stats ⟨[⟨1, [97], 7, 0, 0⟩, ⟨2, [98], 7, 1, 0⟩], [], 3, 1⟩ 7).urls.map
      UrlRow.created) = [0, 1] ∧ (0 : Nat) < 1 := by
  constructor
  · rfl
  · decide

/-- Claim C8 as amended: the database fetch behind the stats page is
ordered most-recent-first (descending id, limited to 100 rows), but the
handler reverses it before display, so the sequence shown to the caller is
ordered oldest-first (ascending id). -/
theorem claim_C8_amended (db : DB) (uid : Nat) :
    ((statsQuery db uid).map UrlRow.id).Pairwise (fun a b => b ≤ a) ∧
    (stats db uid).urls = (statsQuery db uid).reverse ∧
    ((stats db uid).urls.map UrlRow.id).Pairwise (· ≤ ·) := by
  refine ⟨?_, stats_urls_shown db uid, stats_shown_ascending db uid⟩
  rw [List.pairwise_map]
  exact statsQuery_pairwise db uid

/-- Claim C9 counterexample: with a QR file generated but no bucket
configured, the upload is never attempted and the temp file is not
removed. -/
theorem claim_C9_counterexample :
    (shorten ⟨false, [], [104], []⟩ ⟨true, true, true, [117]⟩ ⟨[], [], 1, 1⟩
      (some 7) [97] 0).tempCreated = true ∧
    (shorten ⟨false, [], [104], []⟩ ⟨true, true, true, [117]⟩ ⟨[], [], 1, 1⟩
      (some 7) [97] 0).tempRemoved = false := by
  constructor <;> rfl

/-- Claim C9 as amended: the temp QR file is removed exactly when it was
created and a bucket is configured (the upload is attempted), regardless
of whether the upload succeeds or fails; with no bucket configured the
file is not removed. -/
theorem claim_C9_amended (cfg : AppConfig) (env : GcsEnv) (db : DB)
    (su : Option Nat) (rawUrl : List Nat) (now : Nat) :
    (shorten cfg env db su rawUrl now).tempRemoved =
      ((shorten cfg env db su rawUrl now).tempCreated &&
        !cfg.gcsBucketName.isEmpty) :=
  shorten_tempRemoved cfg env db su rawUrl now

/-- Claim C10: the health endpoint issues no database operation; it
reports 200 with database `connected` exactly when the pool object is
initialized — independent of actual database reachability — and 503 with
`pool_not_initialized` exactly when it is absent. -/
theorem claim_C10 (gcsOk dbReachable : Bool) :
    health true gcsOk dbReachable = ⟨200, DB_CONNECTED, []⟩ ∧
    health false gcsOk dbReachable = ⟨503, DB_POOL_NOT_INITIALIZED, []⟩ ∧
    (∀ r', health true gcsOk dbReachable = health true gcsOk r') :=
  ⟨rfl, rfl, fun _ => rfl⟩

section ConcreteWitnesses

attribute [local semireducible] listSwap

/-- Witness for C4: the spec's sample `GET /doesnotexist123` against both
resolvers, leaving the store untouched. -/
theorem claim_C4_witness :
    url_redirect ⟨false, [], [], []⟩ ⟨[], [], 1, 1⟩ DNE =
      ⟨.notFound404, ⟨[], [], 1, 1⟩, []⟩ ∧
    cf_url_redirect ⟨[], [], 1, 1⟩ (47 :: DNE) =
      ⟨.notFound404, ⟨[], [], 1, 1⟩, []⟩ :=
  ⟨claim_C4.1 ⟨false, [], [], []⟩ ⟨[], [], 1, 1⟩ DNE rfl (by decide),
   claim_C4.2 ⟨[], [], 1, 1⟩ (47 :: DNE) (by decide)⟩

end ConcreteWitnesses

end UrlShortener
